import Mathlib

/-
Verification of pixel-kit-v2.

Shallow embedding of the two source files:
  * `lib - CircuitPython/pixelkit.py` (class `PixelKit`)
  * `lib/pausebutton.py` (class `PauseButton`)

Python strings are modelled as lists of characters; the class-level pin
registries become an explicit `RegState` threaded through the functions;
hardware reads are supplied by a `Raw` environment mapping pins to levels
and samples; observable side effects (scans, reads, callbacks, pixel
mutations, process exit) are collected in an event trace.
-/

/-- Python strings, modelled as lists of characters. -/
abbrev PyStr := List Char

/-- The whitespace characters removed by Python `str.strip()`. -/
def isPySpace (c : Char) : Bool :=
  c = ' ' || c = '\t' || c = '\n' || c = '\r' || c = '\x0b' || c = '\x0c'

/-- Python `str.strip()`: drop whitespace from both ends. -/
def pyStrip (s : PyStr) : PyStr :=
  ((s.dropWhile isPySpace).reverse.dropWhile isPySpace).reverse

/-- Python `str.split(",")`: split on every comma, keeping empty fields. -/
def splitComma : PyStr → List PyStr
  | [] => [[]]
  | c :: rest =>
    if c = ',' then [] :: splitComma rest
    else
      match splitComma rest with
      | h :: t => (c :: h) :: t
      | [] => [[c]]

/-- Python `str.upper()` (the config strings are ASCII). -/
def pyUpper (s : PyStr) : PyStr := s.map Char.toUpper

/-- A board pin identifier (`board.D18`, `board.VP`, ...). -/
abbrev Pin := Nat

def pinD5 : Pin := 5
def pinD18 : Pin := 18
def pinD23 : Pin := 23
def pinD25 : Pin := 25
def pinD26 : Pin := 26
def pinD27 : Pin := 27
def pinD34 : Pin := 34
def pinD35 : Pin := 35
def pinVP : Pin := 100
def pinVN : Pin := 101

/-- `digitalio.Direction`. -/
inductive Direction
  | input
  | output
deriving DecidableEq, Repr

/-- `digitalio.Pull` (only `UP` is used by the sources). -/
inductive Pull
  | up
deriving DecidableEq, Repr

/-- The mutable configuration of a `DigitalInOut` object. -/
structure DioConfig where
  direction : Direction
  pull : Option Pull
deriving DecidableEq, Repr

/-- A `DigitalInOut` / `AnalogIn` handle: identity (`id`) plus the bound pin. -/
structure Handle where
  id : Nat
  pin : Pin
deriving DecidableEq, Repr

/-- First-match association-list lookup (a Python `dict` keyed by pin / id). -/
def lookupP {α : Type} (p : Nat) : List (Nat × α) → Option α
  | [] => none
  | (q, v) :: rest => if q = p then some v else lookupP p rest

/-- Replace the value stored under key `k` (no-op when `k` is absent). -/
def updConf (k : Nat) (f : DioConfig → DioConfig) :
    List (Nat × DioConfig) → List (Nat × DioConfig)
  | [] => []
  | (q, v) :: rest => if q = k then (q, f v) :: rest else (q, v) :: updConf k f rest

/-- The class-level state of `PixelKit`: the two pin registries
(`_dio_registry`, `_ain_registry`), a fresh-id counter for newly
constructed handles, the per-handle `DigitalInOut` configuration, and a
log of the hardware bindings that were actually performed. -/
structure RegState where
  dioReg : List (Pin × Handle)
  ainReg : List (Pin × Handle)
  nextId : Nat
  dioConf : List (Nat × DioConfig)
  dioBinds : List Pin
  ainBinds : List Pin
deriving DecidableEq, Repr

def RegState.empty : RegState := ⟨[], [], 0, [], [], []⟩

/-- `dio.direction = d` on the handle `hd`. -/
def setDir (hd : Handle) (d : Direction) (s : RegState) : RegState :=
  { s with dioConf := updConf hd.id (fun c => { c with direction := d }) s.dioConf }

/-- `dio.pull = p` on the handle `hd`. -/
def setPull (hd : Handle) (p : Option Pull) (s : RegState) : RegState :=
  { s with dioConf := updConf hd.id (fun c => { c with pull := p }) s.dioConf }

/-- `PixelKit._init_dio`: return the given instance, else the registered
handle for the pin, else construct a fresh handle (input, pull-up),
register it and log the hardware binding. -/
def initDio (inst : Option Handle) (p : Pin) (s : RegState) : Handle × RegState :=
  match inst with
  | some h => (h, s)
  | none =>
    match lookupP p s.dioReg with
    | some h => (h, s)
    | none =>
      let h : Handle := ⟨s.nextId, p⟩
      (h, { s with
              dioReg := (p, h) :: s.dioReg,
              nextId := s.nextId + 1,
              dioConf := (h.id, ⟨Direction.input, some Pull.up⟩) :: s.dioConf,
              dioBinds := p :: s.dioBinds })

/-- `PixelKit._init_ain`: analog counterpart of `initDio`. -/
def initAin (inst : Option Handle) (p : Pin) (s : RegState) : Handle × RegState :=
  match inst with
  | some h => (h, s)
  | none =>
    match lookupP p s.ainReg with
    | some h => (h, s)
    | none =>
      let h : Handle := ⟨s.nextId, p⟩
      (h, { s with
              ainReg := (p, h) :: s.ainReg,
              nextId := s.nextId + 1,
              ainBinds := p :: s.ainBinds })

/-- The board's static pin-name table (`getattr(board, name)` is a
case-sensitive lookup in it). -/
abbrev Board := List (PyStr × Pin)

def lookupName (n : PyStr) : Board → Option Pin
  | [] => none
  | (m, p) :: rest => if m = n then some p else lookupName n rest

/-- The read/strip/split/arity portion of `PixelKit._load_pause_from_file`:
strip the first line, reject if empty, split on commas, strip each part,
reject unless exactly two fields. -/
def parseLine (raw : PyStr) : Option (PyStr × PyStr) :=
  let line := pyStrip raw
  if line = [] then none
  else
    match (splitComma line).map pyStrip with
    | [a, b] => some (a, b)
    | _ => none

/-- `PixelKit._load_pause_from_file`. The file's first line is `some raw`;
`none` stands for a missing/unreadable file (`OSError`). Every rejection
path returns `none` for the handle; the success path acquires the pin's
digital handle through the registry and sets its direction. -/
def loadPauseFromFile (bd : Board) (fileLine : Option PyStr) (s : RegState) :
    Option Handle × RegState :=
  match fileLine with
  | none => (none, s)
  | some raw =>
    match parseLine raw with
    | none => (none, s)
    | some (pinName, dirRaw) =>
      let direction := pyUpper dirRaw
      match lookupName pinName bd with
      | none => (none, s)
      | some pinObj =>
        let r := initDio none pinObj s
        if direction = "IN".toList then
          (some r.1, setPull r.1 (some Pull.up) (setDir r.1 Direction.input r.2))
        else if direction = "OUT".toList then
          (some r.1, setDir r.1 Direction.output r.2)
        else
          (none, r.2)

/-- The `DigitalInOut` produced by `PauseButton._load_from_file` (which
bypasses any registry and constructs the handle directly). -/
structure PBDio where
  pin : Pin
  direction : Direction
  pull : Option Pull
deriving DecidableEq, Repr

/-- The exceptions `PauseButton._load_from_file` lets escape. -/
inductive PBErr
  | pinNotFound (name : PyStr)
  | invalidDirection (d : PyStr)
deriving DecidableEq, Repr

/-- `PauseButton._load_from_file`: read failures, empty lines and wrong
field counts are caught and replaced by the defaults `("IO15", "IN")`;
after that, an unresolvable pin name (`AttributeError` from `getattr`)
and an invalid direction (`raise ValueError`) escape the loader. -/
def pbLoadFromFile (bd : Board) (fileLine : Option PyStr) : Except PBErr PBDio :=
  let parsed :=
    match fileLine with
    | none => ("IO15".toList, "IN".toList)
    | some raw =>
      let line := pyStrip raw
      if line = [] then ("IO15".toList, "IN".toList)
      else
        match (splitComma line).map pyStrip with
        | [a, b] => (a, b)
        | _ => ("IO15".toList, "IN".toList)
  match lookupName parsed.1 bd with
  | none => Except.error (PBErr.pinNotFound parsed.1)
  | some pin =>
    if pyUpper parsed.2 = "IN".toList then
      Except.ok ⟨pin, Direction.input, some Pull.up⟩
    else if pyUpper parsed.2 = "OUT".toList then
      Except.ok ⟨pin, Direction.output, none⟩
    else
      Except.error (PBErr.invalidDirection parsed.2)

/-- A demonstration pin-name table for concrete evaluations. -/
def demoBoard : Board :=
  [("D5".toList, pinD5), ("D15".toList, 15), ("IO15".toList, 150)]

example : parseLine " D15 , in ".toList = some ("D15".toList, "in".toList) := by decide
example : (loadPauseFromFile demoBoard (some "D15,in".toList) RegState.empty).1
    = some ⟨0, 15⟩ := by decide
example : pbLoadFromFile demoBoard (some "IO15,FOO".toList)
    = Except.error (PBErr.invalidDirection "FOO".toList) := by rfl

/-- The hardware environment during one scan: the digital level and the
analog sample of every pin (`dio.value`, `ain.value`). -/
structure Raw where
  dval : Pin → Bool
  aval : Pin → Nat

/-- A constant environment: every digital pin reads `v`, every analog pin
samples `a`. -/
def constRaw (v : Bool) (a : Nat) : Raw := ⟨fun _ => v, fun _ => a⟩

/-- Logical input names, in the roles `check_controls` scans. -/
inductive Tag
  | up | down | left | right | click | a | b | dialT | micT | pauseT
deriving DecidableEq, Repr

/-- Observable events of one scan: which input is being checked, hardware
reads, event-hook invocations, pixel-surface mutations, process exit. -/
inductive Ev
  | scan (t : Tag)
  | readD (p : Pin)
  | readA (p : Pin)
  | cb (t : Tag)
  | cbDial (v : Nat)
  | cbMic (v : Nat)
  | fillPx (c : Nat)
  | showPx
  | exitProc
deriving DecidableEq, Repr

/-- The instance state of a `PixelKit` object. -/
structure Kit where
  pause : Option Handle
  buttonA : Handle
  buttonB : Handle
  buttonReset : Handle
  joystickUp : Handle
  joystickDown : Handle
  joystickLeft : Handle
  joystickRight : Handle
  joystickClick : Handle
  dial : Handle
  microphone : Handle
  dialValue : Nat
  microphoneValue : Nat
  isPressingUp : Bool
  isPressingDown : Bool
  isPressingLeft : Bool
  isPressingRight : Bool
  isPressingClick : Bool
  isPressingA : Bool
  isPressingB : Bool
deriving DecidableEq, Repr

/-- `PixelKit.__init__` with the default (`None`) handle arguments: load
the pause handle from the config file, acquire the digital pins in source
order (A, B, reset, joystick up/down/left/right/click), acquire the two
analog pins, sample the initial dial/microphone values from `raw0`, and
start every `is_pressing_*` flag at `False`. -/
def mkKit (bd : Board) (cfgLine : Option PyStr) (raw0 : Raw) (s : RegState) :
    Kit × RegState :=
  let r0 := loadPauseFromFile bd cfgLine s
  let r1 := initDio none pinD18 r0.2
  let r2 := initDio none pinD23 r1.2
  let r3 := initDio none pinD5 r2.2
  let r4 := initDio none pinD35 r3.2
  let r5 := initDio none pinD34 r4.2
  let r6 := initDio none pinD26 r5.2
  let r7 := initDio none pinD25 r6.2
  let r8 := initDio none pinD27 r7.2
  let r9 := initAin none pinVP r8.2
  let r10 := initAin none pinVN r9.2
  (⟨r0.1, r1.1, r2.1, r3.1, r4.1, r5.1, r6.1, r7.1, r8.1, r9.1, r10.1,
    raw0.aval r9.1.pin, raw0.aval r10.1.pin,
    false, false, false, false, false, false, false⟩, r10.2)

/-- `PixelKit._check_digital` on one handle and its `is_pressing_*` flag:
active-low edge detection. Returns the new flag and the events of this
check (the raw level is modelled as constant within one check, so the
possible second evaluation of `dio.value` in the `elif` is one read). -/
def checkDigital (raw : Raw) (hd : Handle) (pressing : Bool) (t : Tag) :
    Bool × List Ev :=
  let v := raw.dval hd.pin
  if !v && !pressing then
    (true, [Ev.scan t, Ev.readD hd.pin, Ev.cb t])
  else if v && pressing then
    (false, [Ev.scan t, Ev.readD hd.pin])
  else
    (pressing, [Ev.scan t, Ev.readD hd.pin])

/-- `PixelKit._check_joystick`: the five joystick roles in source order. -/
def checkJoystick (raw : Raw) (k : Kit) : Kit × List Ev :=
  let u := checkDigital raw k.joystickUp k.isPressingUp Tag.up
  let d := checkDigital raw k.joystickDown k.isPressingDown Tag.down
  let l := checkDigital raw k.joystickLeft k.isPressingLeft Tag.left
  let r := checkDigital raw k.joystickRight k.isPressingRight Tag.right
  let c := checkDigital raw k.joystickClick k.isPressingClick Tag.click
  ({ k with isPressingUp := u.1, isPressingDown := d.1, isPressingLeft := l.1,
            isPressingRight := r.1, isPressingClick := c.1 },
   u.2 ++ d.2 ++ l.2 ++ r.2 ++ c.2)

/-- `PixelKit._check_buttons`: buttons A and B in source order. -/
def checkButtons (raw : Raw) (k : Kit) : Kit × List Ev :=
  let ra := checkDigital raw k.buttonA k.isPressingA Tag.a
  let rb := checkDigital raw k.buttonB k.isPressingB Tag.b
  ({ k with isPressingA := ra.1, isPressingB := rb.1 }, ra.2 ++ rb.2)

/-- `PixelKit._check_dial`: fire `on_dial` iff the new sample differs from
the stored value, updating the stored value on a differing read. -/
def checkDial (raw : Raw) (k : Kit) : Kit × List Ev :=
  let newValue := raw.aval k.dial.pin
  if newValue ≠ k.dialValue then
    ({ k with dialValue := newValue },
     [Ev.scan Tag.dialT, Ev.readA k.dial.pin, Ev.cbDial newValue])
  else
    (k, [Ev.scan Tag.dialT, Ev.readA k.dial.pin])

/-- `PixelKit._check_microphone`: analog change detection, as for the dial. -/
def checkMicrophone (raw : Raw) (k : Kit) : Kit × List Ev :=
  let newValue := raw.aval k.microphone.pin
  if newValue ≠ k.microphoneValue then
    ({ k with microphoneValue := newValue },
     [Ev.scan Tag.micT, Ev.readA k.microphone.pin, Ev.cbMic newValue])
  else
    (k, [Ev.scan Tag.micT, Ev.readA k.microphone.pin])

/-- `PixelKit._update_pause`: when a pause handle is configured and its
level reads active (low), fill the NeoPixels with black, show, and exit
the process; the returned flag records whether `sys.exit()` was reached. -/
def updatePause (raw : Raw) (k : Kit) : List Ev × Bool :=
  match k.pause with
  | none => ([Ev.scan Tag.pauseT], false)
  | some hd =>
    if raw.dval hd.pin then
      ([Ev.scan Tag.pauseT, Ev.readD hd.pin], false)
    else
      ([Ev.scan Tag.pauseT, Ev.readD hd.pin, Ev.fillPx 0, Ev.showPx, Ev.exitProc],
       true)

/-- `PixelKit.check_controls`: joystick, buttons, dial, microphone, pause,
in source order, returning the new instance state, the whole event trace
and whether the pause path exited. -/
def checkControls (raw : Raw) (k : Kit) : Kit × List Ev × Bool :=
  let j := checkJoystick raw k
  let b := checkButtons raw j.1
  let d := checkDial raw b.1
  let m := checkMicrophone raw d.1
  let p := updatePause raw m.1
  (m.1, j.2 ++ b.2 ++ d.2 ++ m.2 ++ p.1, p.2)

/-- `PauseButton.update`: read the button (when present); on an active-low
read, fill the LEDs with black when an LED object is attached (`leds` is
whether `self.leds` is set) and exit. It never calls `show`. -/
def pbUpdate (raw : Raw) (button : Option Handle) (leds : Bool) :
    List Ev × Bool :=
  match button with
  | none => ([], false)
  | some hd =>
    if raw.dval hd.pin then
      ([Ev.readD hd.pin], false)
    else
      (Ev.readD hd.pin :: (if leds then [Ev.fillPx 0] else []) ++ [Ev.exitProc],
       true)

/-- The scan marker carried by an event, if any. -/
def scanTag : Ev → Option Tag
  | Ev.scan t => some t
  | _ => none

/-- The callback carried by an event, if any. -/
def cbTag : Ev → Option Tag
  | Ev.cb t => some t
  | Ev.cbDial _ => some Tag.dialT
  | Ev.cbMic _ => some Tag.micT
  | _ => none

/-- The payload of an `on_dial` invocation, if any. -/
def dialPayload : Ev → Option Nat
  | Ev.cbDial v => some v
  | _ => none

/-- Whether an event is a pixel-surface mutation (`fill` or `show`). -/
def isMutEv : Ev → Bool
  | Ev.fillPx _ => true
  | Ev.showPx => true
  | _ => false

/-- Feed a digital input the raw levels `levels` one check at a time,
starting from flag `pressing`; returns the final flag and each check's
event list. -/
def runDigitalSeq (hd : Handle) (t : Tag) (levels : List Bool) (pressing : Bool) :
    Bool × List (List Ev) :=
  match levels with
  | [] => (pressing, [])
  | v :: rest =>
    let step := checkDigital (constRaw v 0) hd pressing t
    let tail := runDigitalSeq hd t rest step.1
    (tail.1, step.2 :: tail.2)

/-- Feed the dial the analog samples `vs` one check at a time. -/
def runDial (k : Kit) (vs : List Nat) : Kit × List Ev :=
  match vs with
  | [] => (k, [])
  | v :: rest =>
    let step := checkDial (constRaw true v) k
    let tail := runDial step.1 rest
    (tail.1, step.2 ++ tail.2)

/-- A `PixelKit` built with no pause-handle argument and the config line
`D15,in`, starting from an empty registry; its pause handle is `⟨0, 15⟩`. -/
def kitD15 : Kit :=
  (mkKit demoBoard (some "D15,in".toList) (constRaw true 0) RegState.empty).1

example : kitD15.pause = some ⟨0, 15⟩ := by decide

/-- C2: starting from the `Released` state, the active-low raw level
sequence active, active, active, inactive, active makes `_check_digital`
fire the press callback exactly on the 1st and 5th reads, and fires no
callback on the release transition. -/
theorem C2_edge_trigger_sequence (hd : Handle) (t : Tag) :
    ((runDigitalSeq hd t [false, false, false, true, false] false).2).map
        (fun evs => evs.filterMap cbTag) = [[t], [], [], [], [t]]
    ∧ (((runDigitalSeq hd t [false, false, false, true, false] false).2).map
        (fun evs => evs.filterMap cbTag)).flatten.length = 2 := by
  exact ⟨rfl, rfl⟩

/-- C6: `_check_dial` fires `on_dial` exactly when the new sample differs
from the stored value, updates the stored value exactly then, and on the
sample sequence 10, 10, 12, 12, 9 from a kit whose stored value is 10 it
fires exactly twice, with payloads 12 then 9. -/
theorem C6_analog_change_dispatch (k : Kit) (raw : Raw) :
    (((checkDial raw k).2).filterMap dialPayload =
        if raw.aval k.dial.pin = k.dialValue then [] else [raw.aval k.dial.pin])
    ∧ ((checkDial raw k).1.dialValue =
        if raw.aval k.dial.pin = k.dialValue then k.dialValue else raw.aval k.dial.pin)
    ∧ ((runDial (mkKit demoBoard none (constRaw true 10) RegState.empty).1
          [10, 10, 12, 12, 9]).2).filterMap dialPayload = [12, 9] := by
  refine ⟨?_, ?_, by decide⟩
  · by_cases h : raw.aval k.dial.pin = k.dialValue <;>
      simp [checkDial, h, dialPayload]
  · by_cases h : raw.aval k.dial.pin = k.dialValue <;>
      simp [checkDial, h]

/-- C4 counterexample: `PauseButton.update` with an attached LED object
and an active (low) button level fills with black and exits but never
calls `show`/`render`, so "show/render exactly once" fails on it. -/
theorem C4_counterexample_pausebutton_no_show :
    pbUpdate (constRaw false 0) (some ⟨0, 15⟩) true
      = ([Ev.readD 15, Ev.fillPx 0, Ev.exitProc], true)
    ∧ (pbUpdate (constRaw false 0) (some ⟨0, 15⟩) true).1.count Ev.showPx = 0 := by
  exact ⟨rfl, rfl⟩

/-- C4 (amended): with a configured pause handle, `PixelKit._update_pause`
on an inactive level returns normally with no pixel mutation, and on an
active level performs exactly `fill(black)` then `show`, in that order,
before exiting; `PauseButton.update`, by contrast, fills (only when an
LED object is attached) and exits without ever calling `show`. -/
theorem C4_pause_trigger (k : Kit) (hd : Handle) (raw : Raw) (leds : Bool)
    (hp : k.pause = some hd) :
    (raw.dval hd.pin = true →
        (updatePause raw k).2 = false
        ∧ (updatePause raw k).1.filter isMutEv = [])
    ∧ (raw.dval hd.pin = false →
        (updatePause raw k).1
          = [Ev.scan Tag.pauseT, Ev.readD hd.pin, Ev.fillPx 0, Ev.showPx, Ev.exitProc]
        ∧ (updatePause raw k).1.filter isMutEv = [Ev.fillPx 0, Ev.showPx]
        ∧ (updatePause raw k).2 = true)
    ∧ (raw.dval hd.pin = false →
        (pbUpdate raw (some hd) leds).1.filter isMutEv
          = (if leds then [Ev.fillPx 0] else [])
        ∧ (pbUpdate raw (some hd) leds).2 = true) := by
  refine ⟨?_, ?_, ?_⟩
  · intro hv; simp [updatePause, hp, hv, isMutEv]
  · intro hv; simp [updatePause, hp, hv, isMutEv]
  · intro hv; cases leds <;> simp [pbUpdate, hv, isMutEv]

/-- Witness for C4 at concrete inputs: the kit loaded from `D15,in`, with
the pause pin reading inactive and then active. -/
theorem C4_pause_trigger_witness :
    ((updatePause (constRaw true 0) kitD15).2 = false
      ∧ (updatePause (constRaw true 0) kitD15).1.filter isMutEv = [])
    ∧ (updatePause (constRaw false 0) kitD15).1.filter isMutEv
        = [Ev.fillPx 0, Ev.showPx]
    ∧ (pbUpdate (constRaw false 0) (some ⟨0, 15⟩) true).1.filter isMutEv
        = [Ev.fillPx 0] := by
  refine ⟨?_, ?_, ?_⟩
  · exact (C4_pause_trigger kitD15 ⟨0, 15⟩ (constRaw true 0) true (by decide)).1 rfl
  · exact (((C4_pause_trigger kitD15 ⟨0, 15⟩ (constRaw false 0) true
      (by decide)).2.1 rfl)).2.1
  · exact (((C4_pause_trigger kitD15 ⟨0, 15⟩ (constRaw false 0) true
      (by decide)).2.2 rfl)).1

/-- C1 counterexample: `PauseButton._load_from_file` on the line
`IO15,FOO` (resolvable pin, invalid direction) raises a `ValueError` out
of the loader instead of returning the absent result, so construction of
the consumer `PauseButton` object fails. -/
theorem C1_counterexample_pausebutton_raises :
    pbLoadFromFile demoBoard (some "IO15,FOO".toList)
      = Except.error (PBErr.invalidDirection "FOO".toList) := by rfl

/-- C1 (amended): for the `PixelKit` loader the claim holds — a missing
file, an empty or whitespace line, a wrong field count, an unresolvable
pin name or an invalid direction all yield the absent pause handle, and
the constructed kit simply has no pause button; the `PauseButton` loader
instead substitutes the defaults `IO15,IN` on read/parse failures and
raises out of the loader on an unresolvable pin or invalid direction. -/
theorem C1_config_failure_degrades (bd : Board) (cfg : Option PyStr)
    (raw0 : Raw) (s : RegState)
    (hbad : cfg = none
      ∨ (∃ raw, cfg = some raw ∧ parseLine raw = none)
      ∨ (∃ raw pinName dirRaw, cfg = some raw
            ∧ parseLine raw = some (pinName, dirRaw)
            ∧ lookupName pinName bd = none)
      ∨ (∃ raw pinName dirRaw p, cfg = some raw
            ∧ parseLine raw = some (pinName, dirRaw)
            ∧ lookupName pinName bd = some p
            ∧ pyUpper dirRaw ≠ "IN".toList ∧ pyUpper dirRaw ≠ "OUT".toList)) :
    (loadPauseFromFile bd cfg s).1 = none
    ∧ (mkKit bd cfg raw0 s).1.pause = none := by
  have hmain : (loadPauseFromFile bd cfg s).1 = none := by
    rcases hbad with h | ⟨raw, hc, hparse⟩ | ⟨raw, pinName, dirRaw, hc, hparse, hpin⟩ |
        ⟨raw, pinName, dirRaw, p, hc, hparse, hpin, hin, hout⟩
    · simp [loadPauseFromFile, h]
    · simp [loadPauseFromFile, hc, hparse]
    · simp [loadPauseFromFile, hc, hparse, hpin]
    · simp only [loadPauseFromFile, hc, hparse, hpin]
      rw [if_neg hin, if_neg hout]
  exact ⟨hmain, hmain⟩

/-- Witness for C1: the missing-file case on a concrete board, and a
malformed three-field line. -/
theorem C1_config_failure_degrades_witness :
    ((loadPauseFromFile demoBoard none RegState.empty).1 = none
      ∧ (mkKit demoBoard none (constRaw true 0) RegState.empty).1.pause = none)
    ∧ ((loadPauseFromFile demoBoard (some "D15,IN,extra".toList) RegState.empty).1 = none
      ∧ (mkKit demoBoard (some "D15,IN,extra".toList) (constRaw true 0)
            RegState.empty).1.pause = none) := by
  constructor
  · exact C1_config_failure_degrades demoBoard none (constRaw true 0) RegState.empty
      (Or.inl rfl)
  · exact C1_config_failure_degrades demoBoard (some "D15,IN,extra".toList)
      (constRaw true 0) RegState.empty
      (Or.inr (Or.inl ⟨"D15,IN,extra".toList, rfl, by decide⟩))

/-- One registry acquisition: digital or analog, for a given pin. -/
inductive Acq
  | dig (p : Pin)
  | ana (p : Pin)

/-- Perform one acquisition against the registries. -/
def acqStep (s : RegState) : Acq → RegState
  | Acq.dig p => (initDio none p s).2
  | Acq.ana p => (initAin none p s).2

/-- Perform a sequence of acquisitions against the registries. -/
def runAcq (l : List Acq) (s : RegState) : RegState := l.foldl acqStep s

theorem initDio_lookup_self (p : Pin) (s : RegState) :
    lookupP p ((initDio none p s).2).dioReg = some (initDio none p s).1 := by
  cases h : lookupP p s.dioReg <;> simp [initDio, h, lookupP]

theorem initAin_lookup_self (p : Pin) (s : RegState) :
    lookupP p ((initAin none p s).2).ainReg = some (initAin none p s).1 := by
  cases h : lookupP p s.ainReg <;> simp [initAin, h, lookupP]

theorem initDio_found (p : Pin) (s : RegState) (hd : Handle)
    (h : lookupP p s.dioReg = some hd) : initDio none p s = (hd, s) := by
  simp [initDio, h]

theorem initAin_found (p : Pin) (s : RegState) (hd : Handle)
    (h : lookupP p s.ainReg = some hd) : initAin none p s = (hd, s) := by
  simp [initAin, h]

/-- `initDio` never disturbs an existing digital registration. -/
theorem initDio_pres_dio (p q : Pin) (s : RegState) (hd : Handle)
    (h : lookupP p s.dioReg = some hd) :
    lookupP p ((initDio none q s).2).dioReg = some hd := by
  cases hq : lookupP q s.dioReg with
  | some h2 => simp [initDio, hq, h]
  | none =>
    by_cases hpq : q = p
    · subst hpq; rw [h] at hq; cases hq
    · simp [initDio, hq, lookupP, hpq, h]

/-- `initAin` never touches the digital registry. -/
theorem initAin_dioReg (q : Pin) (s : RegState) :
    ((initAin none q s).2).dioReg = s.dioReg := by
  cases hq : lookupP q s.ainReg <;> simp [initAin, hq]

/-- `initAin` never disturbs an existing analog registration. -/
theorem initAin_pres_ain (p q : Pin) (s : RegState) (hd : Handle)
    (h : lookupP p s.ainReg = some hd) :
    lookupP p ((initAin none q s).2).ainReg = some hd := by
  cases hq : lookupP q s.ainReg with
  | some h2 => simp [initAin, hq, h]
  | none =>
    by_cases hpq : q = p
    · subst hpq; rw [h] at hq; cases hq
    · simp [initAin, hq, lookupP, hpq, h]

/-- `initDio` never touches the analog registry. -/
theorem initDio_ainReg (q : Pin) (s : RegState) :
    ((initDio none q s).2).ainReg = s.ainReg := by
  cases hq : lookupP q s.dioReg <;> simp [initDio, hq]

/-- The state produced by a fresh digital binding. -/
theorem initDio_fresh (q : Pin) (s : RegState) (hq : lookupP q s.dioReg = none) :
    initDio none q s = (⟨s.nextId, q⟩, { s with
      dioReg := (q, ⟨s.nextId, q⟩) :: s.dioReg,
      nextId := s.nextId + 1,
      dioConf := (s.nextId, ⟨Direction.input, some Pull.up⟩) :: s.dioConf,
      dioBinds := q :: s.dioBinds }) := by
  simp [initDio, hq]

/-- The state produced by a fresh analog binding. -/
theorem initAin_fresh (q : Pin) (s : RegState) (hq : lookupP q s.ainReg = none) :
    initAin none q s = (⟨s.nextId, q⟩, { s with
      ainReg := (q, ⟨s.nextId, q⟩) :: s.ainReg,
      nextId := s.nextId + 1,
      ainBinds := q :: s.ainBinds }) := by
  simp [initAin, hq]

theorem runAcq_pres_dio (l : List Acq) (p : Pin) (s : RegState) (hd : Handle)
    (h : lookupP p s.dioReg = some hd) :
    lookupP p (runAcq l s).dioReg = some hd := by
  induction l generalizing s with
  | nil => exact h
  | cons a rest ih =>
    cases a with
    | dig q => exact ih _ (initDio_pres_dio p q s hd h)
    | ana q =>
      apply ih
      show lookupP p ((initAin none q s).2).dioReg = some hd
      rw [initAin_dioReg]; exact h

theorem runAcq_pres_ain (l : List Acq) (p : Pin) (s : RegState) (hd : Handle)
    (h : lookupP p s.ainReg = some hd) :
    lookupP p (runAcq l s).ainReg = some hd := by
  induction l generalizing s with
  | nil => exact h
  | cons a rest ih =>
    cases a with
    | ana q => exact ih _ (initAin_pres_ain p q s hd h)
    | dig q =>
      apply ih
      show lookupP p ((initDio none q s).2).ainReg = some hd
      rw [initDio_ainReg]; exact h

/-- The binding-count invariant: a pin absent from the registry has no
logged binding, and no pin is ever bound more than once. -/
def BindInv (p : Pin) (s : RegState) : Prop :=
  (lookupP p s.dioReg = none → List.count p s.dioBinds = 0)
  ∧ List.count p s.dioBinds ≤ 1
  ∧ (lookupP p s.ainReg = none → List.count p s.ainBinds = 0)
  ∧ List.count p s.ainBinds ≤ 1

theorem acqStep_BindInv (p : Pin) (s : RegState) (a : Acq) (h : BindInv p s) :
    BindInv p (acqStep s a) := by
  obtain ⟨hd0, hd1, ha0, ha1⟩ := h
  cases a with
  | dig q =>
    show BindInv p (initDio none q s).2
    cases hq : lookupP q s.dioReg with
    | some h2 => simpa [initDio, hq] using ⟨hd0, hd1, ha0, ha1⟩
    | none =>
      rw [initDio_fresh q s hq]
      refine ⟨?_, ?_, ha0, ha1⟩
      · intro hl
        by_cases hpq : q = p
        · subst hpq; simp [lookupP] at hl
        · simp only [lookupP, if_neg hpq] at hl
          rw [List.count_cons_of_ne (fun hh => hpq hh.symm)]
          exact hd0 hl
      · by_cases hpq : q = p
        · subst hpq
          show List.count q (q :: s.dioBinds) ≤ 1
          rw [List.count_cons_self, hd0 hq]
        · show List.count p (q :: s.dioBinds) ≤ 1
          rw [List.count_cons_of_ne (fun hh => hpq hh.symm)]
          exact hd1
  | ana q =>
    show BindInv p (initAin none q s).2
    cases hq : lookupP q s.ainReg with
    | some h2 => simpa [initAin, hq] using ⟨hd0, hd1, ha0, ha1⟩
    | none =>
      rw [initAin_fresh q s hq]
      refine ⟨hd0, hd1, ?_, ?_⟩
      · intro hl
        by_cases hpq : q = p
        · subst hpq; simp [lookupP] at hl
        · simp only [lookupP, if_neg hpq] at hl
          rw [List.count_cons_of_ne (fun hh => hpq hh.symm)]
          exact ha0 hl
      · by_cases hpq : q = p
        · subst hpq
          show List.count q (q :: s.ainBinds) ≤ 1
          rw [List.count_cons_self, ha0 hq]
        · show List.count p (q :: s.ainBinds) ≤ 1
          rw [List.count_cons_of_ne (fun hh => hpq hh.symm)]
          exact ha1

theorem runAcq_BindInv (l : List Acq) (p : Pin) (s : RegState) (h : BindInv p s) :
    BindInv p (runAcq l s) := by
  induction l generalizing s with
  | nil => exact h
  | cons a rest ih => exact ih _ (acqStep_BindInv p s a h)

/-- C3: acquiring the same pin twice from the digital (or analog)
registry — with an arbitrary sequence of intervening acquisitions —
returns the identical handle both times without changing the state, and
along any acquisition sequence from the initial empty registries each pin
is hardware-bound at most once per registry. -/
theorem C3_registry_idempotent (s : RegState) (p : Pin) (l ps : List Acq) :
    (initDio none p (runAcq l (initDio none p s).2)
        = ((initDio none p s).1, runAcq l (initDio none p s).2))
    ∧ (initAin none p (runAcq l (initAin none p s).2)
        = ((initAin none p s).1, runAcq l (initAin none p s).2))
    ∧ List.count p (runAcq ps RegState.empty).dioBinds ≤ 1
    ∧ List.count p (runAcq ps RegState.empty).ainBinds ≤ 1 := by
  have hinv : BindInv p (runAcq ps RegState.empty) := by
    refine runAcq_BindInv ps p RegState.empty ⟨?_, ?_, ?_, ?_⟩ <;>
      simp [RegState.empty, lookupP]
  refine ⟨?_, ?_, hinv.2.1, hinv.2.2.2⟩
  · exact initDio_found p _ _
      (runAcq_pres_dio l p _ _ (initDio_lookup_self p s))
  · exact initAin_found p _ _
      (runAcq_pres_ain l p _ _ (initAin_lookup_self p s))

theorem lookupP_updConf (k : Nat) (f : DioConfig → DioConfig)
    (l : List (Nat × DioConfig)) :
    lookupP k (updConf k f l) = (lookupP k l).map f := by
  induction l with
  | nil => rfl
  | cons kv rest ih =>
    obtain ⟨q, v⟩ := kv
    by_cases h : q = k <;> simp [updConf, lookupP, h, ih]

/-- The handle returned by `initDio` always has a stored configuration,
provided registered handles already had one. -/
theorem initDio_conf_isSome (p : Pin) (s : RegState)
    (hconf : ∀ hd0, lookupP p s.dioReg = some hd0 →
        (lookupP hd0.id s.dioConf).isSome = true) :
    (lookupP (initDio none p s).1.id ((initDio none p s).2).dioConf).isSome = true := by
  cases hl : lookupP p s.dioReg with
  | some hd => rw [initDio_found p s hd hl]; exact hconf hd hl
  | none => rw [initDio_fresh p s hl]; simp [lookupP]

/-- C5: when the config line parses into a pin name that resolves on the
board and a direction field, the loader returns the registry handle for
that pin with the direction applied — `IN` (case-insensitively) yields an
input with pull-up, `OUT` yields an output — and any other direction
value yields the absent result. -/
theorem C5_loader_direction (bd : Board) (raw : PyStr) (s : RegState)
    (pinName dirRaw : PyStr) (p : Pin)
    (hparse : parseLine raw = some (pinName, dirRaw))
    (hpin : lookupName pinName bd = some p)
    (hconf : ∀ hd0, lookupP p s.dioReg = some hd0 →
        (lookupP hd0.id s.dioConf).isSome = true) :
    (pyUpper dirRaw = "IN".toList →
        (loadPauseFromFile bd (some raw) s).1 = some (initDio none p s).1
        ∧ lookupP (initDio none p s).1.id
            ((loadPauseFromFile bd (some raw) s).2).dioConf
          = some ⟨Direction.input, some Pull.up⟩)
    ∧ (pyUpper dirRaw = "OUT".toList →
        (loadPauseFromFile bd (some raw) s).1 = some (initDio none p s).1
        ∧ (lookupP (initDio none p s).1.id
            ((loadPauseFromFile bd (some raw) s).2).dioConf).map DioConfig.direction
          = some Direction.output)
    ∧ (pyUpper dirRaw ≠ "IN".toList → pyUpper dirRaw ≠ "OUT".toList →
        (loadPauseFromFile bd (some raw) s).1 = none) := by
  obtain ⟨c, hc⟩ := Option.isSome_iff_exists.mp (initDio_conf_isSome p s hconf)
  refine ⟨?_, ?_, ?_⟩
  · intro hdir
    simp only [loadPauseFromFile, hparse, hpin]
    rw [if_pos hdir]
    refine ⟨rfl, ?_⟩
    simp only [setPull, setDir, lookupP_updConf, hc, Option.map_some]
    rfl
  · intro hdir
    have hne : pyUpper dirRaw ≠ "IN".toList := by
      rw [hdir]; decide
    simp only [loadPauseFromFile, hparse, hpin]
    rw [if_neg hne, if_pos hdir]
    refine ⟨rfl, ?_⟩
    simp only [setDir, lookupP_updConf, hc, Option.map_some]
    rfl
  · intro hin hout
    simp only [loadPauseFromFile, hparse, hpin]
    rw [if_neg hin, if_neg hout]

/-- Witness for C5 at the concrete lines `D15,in`, ` D15 , Out`, `D15,xyz`
against the demo board and the empty registry. -/
theorem C5_loader_direction_witness :
    ((loadPauseFromFile demoBoard (some "D15,in".toList) RegState.empty).1
        = some (initDio none 15 RegState.empty).1
      ∧ lookupP (initDio none 15 RegState.empty).1.id
          ((loadPauseFromFile demoBoard (some "D15,in".toList) RegState.empty).2).dioConf
        = some ⟨Direction.input, some Pull.up⟩)
    ∧ ((loadPauseFromFile demoBoard (some " D15 , Out".toList) RegState.empty).1
        = some (initDio none 15 RegState.empty).1)
    ∧ (loadPauseFromFile demoBoard (some "D15,xyz".toList) RegState.empty).1 = none := by
  have hnoconf : ∀ hd0, lookupP 15 RegState.empty.dioReg = some hd0 →
      (lookupP hd0.id RegState.empty.dioConf).isSome = true := by
    intro hd0 hh; simp [RegState.empty, lookupP] at hh
  refine ⟨?_, ?_, ?_⟩
  · exact (C5_loader_direction demoBoard ("D15,in".toList) RegState.empty
      ("D15".toList) ("in".toList) 15 (by decide) (by decide) hnoconf).1 (by decide)
  · exact ((C5_loader_direction demoBoard (" D15 , Out".toList) RegState.empty
      ("D15".toList) ("Out".toList) 15 (by decide) (by decide) hnoconf).2.1
      (by decide)).1
  · exact (C5_loader_direction demoBoard ("D15,xyz".toList) RegState.empty
      ("D15".toList) ("xyz".toList) 15 (by decide) (by decide) hnoconf).2.2
      (by decide) (by decide)

/-- C9: when the pin name resolves but the direction field is invalid,
the loader returns the absent result, yet it has already constructed and
registered a digital handle for that pin (configured input, pull-up), so
the registry state differs from the pre-call state. -/
theorem C9_loader_not_atomic (bd : Board) (raw : PyStr) (s : RegState)
    (pinName dirRaw : PyStr) (p : Pin)
    (hparse : parseLine raw = some (pinName, dirRaw))
    (hpin : lookupName pinName bd = some p)
    (hin : pyUpper dirRaw ≠ "IN".toList) (hout : pyUpper dirRaw ≠ "OUT".toList)
    (hreg : lookupP p s.dioReg = none) :
    (loadPauseFromFile bd (some raw) s).1 = none
    ∧ lookupP p ((loadPauseFromFile bd (some raw) s).2).dioReg
        = some ⟨s.nextId, p⟩
    ∧ lookupP s.nextId ((loadPauseFromFile bd (some raw) s).2).dioConf
        = some ⟨Direction.input, some Pull.up⟩
    ∧ (loadPauseFromFile bd (some raw) s).2 ≠ s := by
  have hload : loadPauseFromFile bd (some raw) s = (none, (initDio none p s).2) := by
    simp only [loadPauseFromFile, hparse, hpin]
    rw [if_neg hin, if_neg hout]
  rw [hload, initDio_fresh p s hreg]
  refine ⟨rfl, ?_, ?_, ?_⟩
  · simp [lookupP]
  · simp [lookupP]
  · intro heq
    have := congrArg (fun st => lookupP p st.dioReg) heq
    simp [lookupP, hreg] at this

/-- Witness for C9 at the concrete line `D15,xyz` against the demo board
and the empty registry. -/
theorem C9_loader_not_atomic_witness :
    (loadPauseFromFile demoBoard (some "D15,xyz".toList) RegState.empty).1 = none
    ∧ lookupP 15 ((loadPauseFromFile demoBoard (some "D15,xyz".toList)
        RegState.empty).2).dioReg = some ⟨0, 15⟩
    ∧ (loadPauseFromFile demoBoard (some "D15,xyz".toList) RegState.empty).2
        ≠ RegState.empty := by
  have h := C9_loader_not_atomic demoBoard ("D15,xyz".toList) RegState.empty
    ("D15".toList) ("xyz".toList) 15 (by decide) (by decide) (by decide) (by decide)
    (by simp [RegState.empty, lookupP])
  exact ⟨h.1, h.2.1, h.2.2.2⟩

theorem checkDigital_scan (raw : Raw) (hd : Handle) (pr : Bool) (t : Tag) :
    ((checkDigital raw hd pr t).2).filterMap scanTag = [t] := by
  cases hv : raw.dval hd.pin <;> cases pr <;>
    simp [checkDigital, hv, scanTag]

theorem checkDigital_cb (raw : Raw) (hd : Handle) (pr : Bool) (t : Tag) :
    List.Sublist (((checkDigital raw hd pr t).2).filterMap cbTag) [t] := by
  cases hv : raw.dval hd.pin <;> cases pr <;>
    simp only [checkDigital, hv, Bool.not_false, Bool.not_true, Bool.and_self,
      Bool.false_and, Bool.and_false, Bool.true_and, Bool.and_true, if_true, if_false,
      Bool.false_eq_true, List.filterMap, cbTag] <;>
    first
      | exact List.Sublist.refl _
      | exact List.nil_sublist _

theorem checkDial_scan (raw : Raw) (k : Kit) :
    ((checkDial raw k).2).filterMap scanTag = [Tag.dialT] := by
  by_cases h : raw.aval k.dial.pin = k.dialValue <;>
    simp [checkDial, h, scanTag]

theorem checkDial_cb (raw : Raw) (k : Kit) :
    List.Sublist (((checkDial raw k).2).filterMap cbTag) [Tag.dialT] := by
  by_cases h : raw.aval k.dial.pin = k.dialValue
  · simp only [checkDial, h, if_neg (by simp : ¬(k.dialValue ≠ k.dialValue))]
    simp only [List.filterMap, cbTag]
    exact List.nil_sublist _
  · simp only [checkDial, if_pos h, List.filterMap, cbTag]
    exact List.Sublist.refl _

theorem checkMicrophone_scan (raw : Raw) (k : Kit) :
    ((checkMicrophone raw k).2).filterMap scanTag = [Tag.micT] := by
  by_cases h : raw.aval k.microphone.pin = k.microphoneValue <;>
    simp [checkMicrophone, h, scanTag]

theorem checkMicrophone_cb (raw : Raw) (k : Kit) :
    List.Sublist (((checkMicrophone raw k).2).filterMap cbTag) [Tag.micT] := by
  by_cases h : raw.aval k.microphone.pin = k.microphoneValue
  · simp only [checkMicrophone, h,
      if_neg (by simp : ¬(k.microphoneValue ≠ k.microphoneValue))]
    simp only [List.filterMap, cbTag]
    exact List.nil_sublist _
  · simp only [checkMicrophone, if_pos h, List.filterMap, cbTag]
    exact List.Sublist.refl _

theorem updatePause_scan (raw : Raw) (k : Kit) :
    ((updatePause raw k).1).filterMap scanTag = [Tag.pauseT] := by
  cases hk : k.pause with
  | none => simp [updatePause, hk, scanTag]
  | some hd => cases hv : raw.dval hd.pin <;> simp [updatePause, hk, hv, scanTag]

theorem updatePause_cb (raw : Raw) (k : Kit) :
    ((updatePause raw k).1).filterMap cbTag = [] := by
  cases hk : k.pause with
  | none => simp [updatePause, hk, cbTag]
  | some hd => cases hv : raw.dval hd.pin <;> simp [updatePause, hk, hv, cbTag]

theorem checkControls_trace (raw : Raw) (k : Kit) :
    (checkControls raw k).2.1
      = (checkJoystick raw k).2
        ++ (checkButtons raw (checkJoystick raw k).1).2
        ++ (checkDial raw (checkButtons raw (checkJoystick raw k).1).1).2
        ++ (checkMicrophone raw
              (checkDial raw (checkButtons raw (checkJoystick raw k).1).1).1).2
        ++ (updatePause raw
              (checkMicrophone raw
                (checkDial raw (checkButtons raw (checkJoystick raw k).1).1).1).1).1 := rfl

theorem checkJoystick_trace (raw : Raw) (k : Kit) :
    (checkJoystick raw k).2
      = (checkDigital raw k.joystickUp k.isPressingUp Tag.up).2
        ++ (checkDigital raw k.joystickDown k.isPressingDown Tag.down).2
        ++ (checkDigital raw k.joystickLeft k.isPressingLeft Tag.left).2
        ++ (checkDigital raw k.joystickRight k.isPressingRight Tag.right).2
        ++ (checkDigital raw k.joystickClick k.isPressingClick Tag.click).2 := rfl

theorem checkButtons_trace (raw : Raw) (k : Kit) :
    (checkButtons raw k).2
      = (checkDigital raw k.buttonA k.isPressingA Tag.a).2
        ++ (checkDigital raw k.buttonB k.isPressingB Tag.b).2 := rfl

/-- C7: in every poll cycle `check_controls` scans the inputs in exactly
the fixed order joystick up, down, left, right, click, button A, button
B, dial, microphone, pause check; consequently the callbacks that fire do
so in (a subsequence of) that same order. -/
theorem C7_scan_order (raw : Raw) (k : Kit) :
    ((checkControls raw k).2.1).filterMap scanTag
      = [Tag.up, Tag.down, Tag.left, Tag.right, Tag.click, Tag.a, Tag.b,
         Tag.dialT, Tag.micT, Tag.pauseT]
    ∧ List.Sublist (((checkControls raw k).2.1).filterMap cbTag)
        [Tag.up, Tag.down, Tag.left, Tag.right, Tag.click, Tag.a, Tag.b,
         Tag.dialT, Tag.micT] := by
  constructor
  · rw [checkControls_trace, checkJoystick_trace, checkButtons_trace]
    simp only [List.filterMap_append, checkDigital_scan, checkDial_scan,
      checkMicrophone_scan, updatePause_scan]
    rfl
  · rw [checkControls_trace, checkJoystick_trace, checkButtons_trace]
    simp only [List.filterMap_append, updatePause_cb]
    exact List.Sublist.append
      (List.Sublist.append
        (List.Sublist.append
          (List.Sublist.append
            (List.Sublist.append
              (List.Sublist.append
                (List.Sublist.append
                  (List.Sublist.append (checkDigital_cb _ _ _ _)
                    (checkDigital_cb _ _ _ _))
                  (checkDigital_cb _ _ _ _))
                (checkDigital_cb _ _ _ _))
              (checkDigital_cb _ _ _ _))
            (List.Sublist.append (checkDigital_cb _ _ _ _) (checkDigital_cb _ _ _ _)))
          (checkDial_cb _ _))
        (checkMicrophone_cb _ _))
      (List.Sublist.refl [])

theorem checkDigital_fst (raw : Raw) (hd : Handle) (pr : Bool) (t : Tag) :
    (checkDigital raw hd pr t).1 = !(raw.dval hd.pin) := by
  cases hv : raw.dval hd.pin <;> cases pr <;> simp [checkDigital, hv]

theorem runDigitalSeq_fst (hd : Handle) (t : Tag) (levels : List Bool) (pr : Bool) :
    (runDigitalSeq hd t levels pr).1 = ((levels.getLast?).map not).getD pr := by
  induction levels generalizing pr with
  | nil => rfl
  | cons v rest ih =>
    show (runDigitalSeq hd t rest (checkDigital (constRaw v 0) hd pr t).1).1 = _
    rw [ih, checkDigital_fst]
    show ((rest.getLast?).map not).getD (!v)
        = (((v :: rest).getLast?).map not).getD pr
    cases rest with
    | nil => rfl
    | cons w rest2 =>
      rw [List.getLast?_cons_cons]
      obtain ⟨x, hx⟩ := Option.isSome_iff_exists.mp
        ((List.getLast?_isSome (l := w :: rest2)).mpr (by simp))
      rw [hx]; rfl

/-- C8: the `is_pressing_*` flag after a sequence of polls is true
exactly when the most recent raw observation was active (low) — i.e. no
inactive observation occurred after the last active one — and every flag
starts out `False` (`Released`) at construction. -/
theorem C8_pressed_invariant (hd : Handle) (t : Tag) (levels : List Bool)
    (bd : Board) (cfg : Option PyStr) (raw0 : Raw) (s : RegState) :
    ((runDigitalSeq hd t levels false).1 = true ↔ levels.getLast? = some false)
    ∧ ((mkKit bd cfg raw0 s).1.isPressingUp = false
      ∧ (mkKit bd cfg raw0 s).1.isPressingDown = false
      ∧ (mkKit bd cfg raw0 s).1.isPressingLeft = false
      ∧ (mkKit bd cfg raw0 s).1.isPressingRight = false
      ∧ (mkKit bd cfg raw0 s).1.isPressingClick = false
      ∧ (mkKit bd cfg raw0 s).1.isPressingA = false
      ∧ (mkKit bd cfg raw0 s).1.isPressingB = false) := by
  constructor
  · rw [runDigitalSeq_fst]
    cases hl : levels.getLast? with
    | none => simp
    | some v => cases v <;> simp
  · exact ⟨rfl, rfl, rfl, rfl, rfl, rfl, rfl⟩

/-- Registered digital handles carry the pin they are registered under. -/
def WFdio (s : RegState) : Prop :=
  ∀ p hd, lookupP p s.dioReg = some hd → hd.pin = p

theorem WFdio_empty : WFdio RegState.empty := by
  intro p hd h
  simp [RegState.empty, lookupP] at h

theorem initDio_WF (p : Pin) (s : RegState) (h : WFdio s) :
    WFdio (initDio none p s).2 ∧ (initDio none p s).1.pin = p := by
  cases hl : lookupP p s.dioReg with
  | some hd => rw [initDio_found p s hd hl]; exact ⟨h, h p hd hl⟩
  | none =>
    rw [initDio_fresh p s hl]
    refine ⟨?_, rfl⟩
    intro q hd hq
    simp only [lookupP] at hq
    by_cases hpq : p = q
    · rw [if_pos hpq] at hq
      cases hq
      exact hpq
    · rw [if_neg hpq] at hq
      exact h q hd hq

theorem initAin_WFdio (p : Pin) (s : RegState) (h : WFdio s) :
    WFdio (initAin none p s).2 := by
  intro q hd hq
  rw [initAin_dioReg] at hq
  exact h q hd hq

theorem loadPause_WF (bd : Board) (cfg : Option PyStr) (s : RegState)
    (h : WFdio s) : WFdio (loadPauseFromFile bd cfg s).2 := by
  cases cfg with
  | none => exact h
  | some raw =>
    cases hp : parseLine raw with
    | none => simpa [loadPauseFromFile, hp] using h
    | some pr =>
      obtain ⟨n, d⟩ := pr
      cases hn : lookupName n bd with
      | none => simpa [loadPauseFromFile, hp, hn] using h
      | some p =>
        have hWF : WFdio (initDio none p s).2 := (initDio_WF p s h).1
        simp only [loadPauseFromFile, hp, hn]
        by_cases hIn : pyUpper d = "IN".toList
        · rw [if_pos hIn]
          intro q hd hq
          exact hWF q hd hq
        · rw [if_neg hIn]
          by_cases hOut : pyUpper d = "OUT".toList
          · rw [if_pos hOut]
            intro q hd hq
            exact hWF q hd hq
          · rw [if_neg hOut]
            exact hWF

/-- Construction from the empty registry registers the reset button's
handle under pin `D5`. -/
theorem mkKit_reset_registered (bd : Board) (cfg : Option PyStr) (raw0 : Raw) :
    lookupP pinD5 ((mkKit bd cfg raw0 RegState.empty).2).dioReg
      = some ((mkKit bd cfg raw0 RegState.empty).1.buttonReset) := by
  simp only [mkKit]
  rw [initAin_dioReg, initAin_dioReg]
  exact initDio_pres_dio pinD5 pinD27 _ _
    (initDio_pres_dio pinD5 pinD25 _ _
      (initDio_pres_dio pinD5 pinD26 _ _
        (initDio_pres_dio pinD5 pinD34 _ _
          (initDio_pres_dio pinD5 pinD35 _ _
            (initDio_lookup_self pinD5 _)))))

/-- The digital handles of a kit constructed from the empty registry are
bound to their source pins. -/
theorem mkKit_pins (bd : Board) (cfg : Option PyStr) (raw0 : Raw) :
    (mkKit bd cfg raw0 RegState.empty).1.buttonA.pin = pinD18
    ∧ (mkKit bd cfg raw0 RegState.empty).1.buttonB.pin = pinD23
    ∧ (mkKit bd cfg raw0 RegState.empty).1.joystickUp.pin = pinD35
    ∧ (mkKit bd cfg raw0 RegState.empty).1.joystickDown.pin = pinD34
    ∧ (mkKit bd cfg raw0 RegState.empty).1.joystickLeft.pin = pinD26
    ∧ (mkKit bd cfg raw0 RegState.empty).1.joystickRight.pin = pinD25
    ∧ (mkKit bd cfg raw0 RegState.empty).1.joystickClick.pin = pinD27 := by
  have hL : WFdio (loadPauseFromFile bd cfg RegState.empty).2 :=
    loadPause_WF bd cfg RegState.empty WFdio_empty
  have h1 := initDio_WF pinD18 _ hL
  have h2 := initDio_WF pinD23 _ h1.1
  have h3 := initDio_WF pinD5 _ h2.1
  have h4 := initDio_WF pinD35 _ h3.1
  have h5 := initDio_WF pinD34 _ h4.1
  have h6 := initDio_WF pinD26 _ h5.1
  have h7 := initDio_WF pinD25 _ h6.1
  have h8 := initDio_WF pinD27 _ h7.1
  simp only [mkKit]
  exact ⟨h1.2, h2.2, h4.2, h5.2, h6.2, h7.2, h8.2⟩

theorem readD_notin_checkDigital (raw : Raw) (hd : Handle) (pr : Bool) (t : Tag)
    (q : Pin) (hne : hd.pin ≠ q) : Ev.readD q ∉ (checkDigital raw hd pr t).2 := by
  intro hmem
  cases hv : raw.dval hd.pin <;> cases pr <;>
    simp [checkDigital, hv] at hmem <;>
    exact hne hmem.symm

theorem readD_notin_checkDial (raw : Raw) (k : Kit) (q : Pin) :
    Ev.readD q ∉ (checkDial raw k).2 := by
  by_cases h : raw.aval k.dial.pin = k.dialValue <;> simp [checkDial, h]

theorem readD_notin_checkMicrophone (raw : Raw) (k : Kit) (q : Pin) :
    Ev.readD q ∉ (checkMicrophone raw k).2 := by
  by_cases h : raw.aval k.microphone.pin = k.microphoneValue <;>
    simp [checkMicrophone, h]

theorem checkDial_fst_pause (raw : Raw) (k : Kit) :
    (checkDial raw k).1.pause = k.pause := by
  by_cases h : raw.aval k.dial.pin = k.dialValue <;> simp [checkDial, h]

theorem checkMicrophone_fst_pause (raw : Raw) (k : Kit) :
    (checkMicrophone raw k).1.pause = k.pause := by
  by_cases h : raw.aval k.microphone.pin = k.microphoneValue <;>
    simp [checkMicrophone, h]

theorem readD_notin_updatePause (raw : Raw) (k : Kit) (q : Pin)
    (hp : ∀ hd, k.pause = some hd → hd.pin ≠ q) :
    Ev.readD q ∉ (updatePause raw k).1 := by
  cases hk : k.pause with
  | none => simp [updatePause, hk]
  | some hd =>
    have hne := hp hd hk
    intro hmem
    cases hv : raw.dval hd.pin <;>
      simp [updatePause, hk, hv] at hmem <;>
      exact hne hmem.symm

/-- C10 counterexample: with the pause config line `D5,IN`, the loader
registers pin `D5` first, `button_reset` aliases the very same handle,
and every poll cycle reads that handle through the pause check. -/
theorem C10_counterexample_pause_aliases_reset :
    (mkKit demoBoard (some "D5,IN".toList) (constRaw true 0) RegState.empty).1.pause
      = some ((mkKit demoBoard (some "D5,IN".toList) (constRaw true 0)
          RegState.empty).1.buttonReset)
    ∧ Ev.readD pinD5 ∈
        (checkControls (constRaw true 0)
          (mkKit demoBoard (some "D5,IN".toList) (constRaw true 0)
            RegState.empty).1).2.1 := by
  exact ⟨by decide, by decide⟩

/-- C10 (amended): construction from the empty registry acquires and
registers a digital handle for the reset button (pin `D5`), and as long
as the pause handle is not itself on pin `D5`, no poll cycle reads the
`D5` handle — `check_controls` never touches `button_reset`; the one
exception, forced by the counterexample, is a pause config naming `D5`,
which aliases the pause handle to the reset handle. -/
theorem C10_reset_never_scanned (bd : Board) (cfg : Option PyStr) (raw0 raw : Raw)
    (hpause : ∀ hd, (mkKit bd cfg raw0 RegState.empty).1.pause = some hd →
        hd.pin ≠ pinD5) :
    lookupP pinD5 ((mkKit bd cfg raw0 RegState.empty).2).dioReg
      = some ((mkKit bd cfg raw0 RegState.empty).1.buttonReset)
    ∧ Ev.readD pinD5 ∉
        (checkControls raw (mkKit bd cfg raw0 RegState.empty).1).2.1 := by
  obtain ⟨hA, hB, hU, hD, hLf, hR, hC⟩ := mkKit_pins bd cfg raw0
  refine ⟨mkKit_reset_registered bd cfg raw0, ?_⟩
  rw [checkControls_trace, checkJoystick_trace, checkButtons_trace]
  simp only [List.mem_append, not_or]
  refine ⟨⟨⟨⟨⟨⟨⟨⟨?_, ?_⟩, ?_⟩, ?_⟩, ?_⟩, ⟨?_, ?_⟩⟩, ?_⟩, ?_⟩, ?_⟩
  · exact readD_notin_checkDigital raw _ _ _ pinD5 (by rw [hU]; decide)
  · exact readD_notin_checkDigital raw _ _ _ pinD5 (by rw [hD]; decide)
  · exact readD_notin_checkDigital raw _ _ _ pinD5 (by rw [hLf]; decide)
  · exact readD_notin_checkDigital raw _ _ _ pinD5 (by rw [hR]; decide)
  · exact readD_notin_checkDigital raw _ _ _ pinD5 (by rw [hC]; decide)
  · refine readD_notin_checkDigital raw _ _ _ pinD5 ?_
    show (mkKit bd cfg raw0 RegState.empty).1.buttonA.pin ≠ pinD5
    rw [hA]; decide
  · refine readD_notin_checkDigital raw _ _ _ pinD5 ?_
    show (mkKit bd cfg raw0 RegState.empty).1.buttonB.pin ≠ pinD5
    rw [hB]; decide
  · exact readD_notin_checkDial raw _ pinD5
  · exact readD_notin_checkMicrophone raw _ pinD5
  · refine readD_notin_updatePause raw _ pinD5 ?_
    intro hd h
    rw [checkMicrophone_fst_pause, checkDial_fst_pause] at h
    exact hpause hd h

/-- Witness for C10 with no pause config (pause absent) on the demo board. -/
theorem C10_reset_never_scanned_witness :
    lookupP pinD5 ((mkKit demoBoard none (constRaw true 0) RegState.empty).2).dioReg
      = some ((mkKit demoBoard none (constRaw true 0) RegState.empty).1.buttonReset)
    ∧ Ev.readD pinD5 ∉
        (checkControls (constRaw true 0)
          (mkKit demoBoard none (constRaw true 0) RegState.empty).1).2.1 := by
  have hp0 : (mkKit demoBoard none (constRaw true 0) RegState.empty).1.pause
      = none := rfl
  exact C10_reset_never_scanned demoBoard none (constRaw true 0) (constRaw true 0)
    (by intro hd h; rw [hp0] at h; cases h)

